import Mathlib

/-!
Verification of the xxhash-cli streaming core (`src/main.rs`).

The program is a command-line checksum utility.  Its core is
`ChunkedReader::next`, which amortizes short reads from an underlying byte
source into buffer-capacity chunks, and `main`'s per-algorithm driver loops,
which feed chunks into a streaming hash accumulator, print one
`"<path>:<digest>"` line per file, and reset the accumulator between files.

Embedding of the byte source: `ChunkedReader` is generic over any
`T: Read`.  A `read` call into a slice of length `remaining` can deliver
`k ≤ remaining` bytes (`Ok(k)` with `k > 0`), report end of input (`Ok(0)`),
fail with the transient interrupted condition (retried by the loop), or fail
with any other error (propagated).  We model the source as a finite list of
events: a `chunk` event holds bytes the source has available for delivery
(a read delivers at most the requested `remaining` bytes from the front of
the event, leaving the rest for the following read), `intr` is one
interrupted read, and `fail` is a non-interrupted read error carrying the
error's display text.  An exhausted event list means every further read
returns `Ok(0)`, and a read into an empty slice returns `Ok(0)` without
touching the source, as `File::read` does.
-/

/-- One observable behaviour of the underlying `Read` source at a single
`read` call: deliverable bytes, an interrupted read, or a read error. -/
inductive Delivery
  | chunk (d : List Nat)
  | intr
  | fail (e : String)
deriving DecidableEq, Repr

namespace ChunkedReader

/-- The loop body of `ChunkedReader::next` (src/main.rs lines 27-39).
`remaining` is the length of the unfilled tail `buf` of the buffer, `acc`
the bytes accumulated so far this call (`total_size = acc.length`).
Returns the accumulated bytes (or the propagated read error) together with
the state the source is left in.

One deviation from the literal loop shape, with identical semantics: when a
read delivers exactly the `remaining` requested bytes out of a larger chunk
event, the buffer is full, so the following iteration reads into an empty
slice, gets `Ok(0)` and breaks without touching the source; we return
directly at that point instead of iterating once more. -/
def nextLoop (src : List Delivery) (remaining : Nat) (acc : List Nat) :
    Except String (List Nat) × List Delivery :=
  if remaining = 0 then
    -- read into an empty slice: `Ok(0)` => break
    (Except.ok acc, src)
  else
    match src with
    | [] => (Except.ok acc, [])  -- source exhausted: `Ok(0)` => break
    | Delivery.intr :: rest => nextLoop rest remaining acc  -- `ErrorKind::Interrupted` => continue
    | Delivery.fail e :: rest => (Except.error e, rest)     -- other error => return Err
    | Delivery.chunk d :: rest =>
      if d.length = 0 then (Except.ok acc, rest)            -- `Ok(0)` => break
      else if d.length ≤ remaining then
        -- `Ok(size)` with the whole event delivered: advance cursor, continue
        nextLoop rest (remaining - d.length) (acc ++ d)
      else
        -- `Ok(remaining)`: buffer now full; next read returns `Ok(0)` and breaks
        (Except.ok (acc ++ d.take remaining), Delivery.chunk (d.drop remaining) :: rest)

/-- `ChunkedReader::next` (src/main.rs lines 24-46) for a reader with buffer
capacity `N`: run the read loop from an empty buffer, then return `None` if
zero total bytes were accumulated and the accumulated chunk otherwise. -/
def next (N : Nat) (src : List Delivery) :
    Except String (Option (List Nat)) × List Delivery :=
  match nextLoop src N [] with
  | (Except.ok acc, rest) =>
    if acc.length = 0 then (Except.ok none, rest) else (Except.ok (some acc), rest)
  | (Except.error e, rest) => (Except.error e, rest)

end ChunkedReader

/-- Size of a source: number of pending events plus pending deliverable
bytes.  Every `next` call that returns a chunk strictly decreases it. -/
def srcSize : List Delivery → Nat
  | [] => 0
  | Delivery.chunk d :: rest => d.length + 1 + srcSize rest
  | _ :: rest => 1 + srcSize rest

/-- The same source with every interrupted-read event removed. -/
def stripIntr : List Delivery → List Delivery
  | [] => []
  | Delivery.intr :: rest => stripIntr rest
  | d :: rest => d :: stripIntr rest

/-- The sequence of chunks produced by repeatedly calling `next` on a reader
of capacity `N` until the terminal signal, or the first propagated read
error.  This is the reading behaviour of each per-file driver loop in
`main`.  `fuel` bounds the recursion; `srcSize src` calls always suffice
because each returned chunk strictly shrinks the source (proved below). -/
def readAllAux : Nat → Nat → List Delivery → Except String (List (List Nat))
  | 0, _, _ => Except.ok []
  | fuel + 1, N, src =>
    match ChunkedReader.next N src with
    | (Except.ok none, _) => Except.ok []
    | (Except.ok (some c), rest) => (readAllAux fuel N rest).map (fun cs => c :: cs)
    | (Except.error e, _) => Except.error e

/-- All chunks delivered for one source by the `loop { match reader.next() }`
pattern of `main`, with sufficient fuel. -/
def readAll (N : Nat) (src : List Delivery) : Except String (List (List Nat)) :=
  readAllAux (srcSize src + 1) N src

/-!
Hash accumulators.  `xxhash_rust`'s `Xxh3`, `Xxh64` and `Xxh32` are external
crate code, out of this repository's source; the spec (§1) treats them as
external collaborators and specifies only their streaming contract.
-/

/-- Modelled from the spec: `xxhash_rust::xxh3::Xxh3` (external crate; only
its streaming contract is specified).  Per spec §3, the accumulator state is
the construction seed plus the data accumulated by `update` calls; `digest`
and `digest128` are pure, non-destructive finalizations of that state
(spec §4.2 step 4); `reset` restores the freshly-seeded state, preserving
the construction seed (spec §4.2 step 6).  The mixing functions themselves
are out of scope, so digests are taken relative to an arbitrary
finalization function from seed and accumulated bytes. -/
structure Xxh3 where
  seed : Nat
  buffered : List Nat
deriving DecidableEq, Repr

def Xxh3.with_seed (seed : Nat) : Xxh3 := ⟨seed, []⟩

def Xxh3.update (h : Xxh3) (chunk : List Nat) : Xxh3 :=
  { h with buffered := h.buffered ++ chunk }

def Xxh3.digest128 (H : Nat → List Nat → Nat) (h : Xxh3) : Nat :=
  H h.seed h.buffered

def Xxh3.digest (H : Nat → List Nat → Nat) (h : Xxh3) : Nat :=
  H h.seed h.buffered

def Xxh3.reset (h : Xxh3) : Xxh3 := { h with buffered := [] }

/-- Modelled from the spec: `xxhash_rust::xxh64::Xxh64` (external crate).
Same streaming contract as `Xxh3`, except that `reset` takes the seed as an
explicit argument (spec §4.2, algorithm selection). -/
structure Xxh64 where
  seed : Nat
  buffered : List Nat
deriving DecidableEq, Repr

def Xxh64.new (seed : Nat) : Xxh64 := ⟨seed, []⟩

def Xxh64.update (h : Xxh64) (chunk : List Nat) : Xxh64 :=
  { h with buffered := h.buffered ++ chunk }

def Xxh64.digest (H : Nat → List Nat → Nat) (h : Xxh64) : Nat :=
  H h.seed h.buffered

def Xxh64.reset (_h : Xxh64) (seed : Nat) : Xxh64 := ⟨seed, []⟩

/-- Modelled from the spec: `xxhash_rust::xxh32::Xxh32` (external crate).
Same streaming contract as `Xxh64`: `reset` takes the seed explicitly. -/
structure Xxh32 where
  seed : Nat
  buffered : List Nat
deriving DecidableEq, Repr

def Xxh32.new (seed : Nat) : Xxh32 := ⟨seed, []⟩

def Xxh32.update (h : Xxh32) (chunk : List Nat) : Xxh32 :=
  { h with buffered := h.buffered ++ chunk }

def Xxh32.digest (H : Nat → List Nat → Nat) (h : Xxh32) : Nat :=
  H h.seed h.buffered

def Xxh32.reset (_h : Xxh32) (seed : Nat) : Xxh32 := ⟨seed, []⟩

/-!
UUID rendering for the 128-bit variant.
-/

/-- Lowercase hexadecimal digit character for `n < 16`:
`0-9` are code points 48-57, `a-f` are 97-102. -/
def hexDigit (n : Nat) : Char :=
  if n < 10 then Char.ofNat (48 + n) else Char.ofNat (87 + n)

/-- Two lowercase hex digits of a byte, high nibble first. -/
def byteToHex (b : Nat) : List Char :=
  [hexDigit (b / 16), hexDigit (b % 16)]

/-- `u128::to_le_bytes`: the sixteen bytes of a 128-bit value,
least-significant first. -/
def toLeBytes (h : Nat) : List Nat :=
  [h % 256, h / 2 ^ 8 % 256, h / 2 ^ 16 % 256, h / 2 ^ 24 % 256,
   h / 2 ^ 32 % 256, h / 2 ^ 40 % 256, h / 2 ^ 48 % 256, h / 2 ^ 56 % 256,
   h / 2 ^ 64 % 256, h / 2 ^ 72 % 256, h / 2 ^ 80 % 256, h / 2 ^ 88 % 256,
   h / 2 ^ 96 % 256, h / 2 ^ 104 % 256, h / 2 ^ 112 % 256, h / 2 ^ 120 % 256]

/-- Modelled from the spec:
`lolid::Uuid::from_bytes(..).set_variant().set_version(Version::Random)`
and its `Display` are external crate code.  Per spec §4.2 step 5 and §6, the
sixteen digest bytes are reinterpreted as an RFC 4122 UUID: `set_version`
forces the version nibble (high nibble of byte 6) to `4`, so byte 6 becomes
`0x40 ||| (b6 &&& 0x0f) = 64 + b6 % 16`; `set_variant` forces the variant
bits (top two bits of byte 8) to `10`, so byte 8 becomes
`0x80 ||| (b8 &&& 0x3f) = 128 + b8 % 64`; the string form is the bytes in
order as lowercase hex in 8-4-4-4-12 groups. -/
def uuidV4OfBytes : List Nat → String
  | [b0, b1, b2, b3, b4, b5, b6, b7, b8, b9, b10, b11, b12, b13, b14, b15] =>
    String.mk (byteToHex b0 ++ byteToHex b1 ++ byteToHex b2 ++ byteToHex b3 ++
      ['-'] ++ byteToHex b4 ++ byteToHex b5 ++
      ['-'] ++ byteToHex (64 + b6 % 16) ++ byteToHex b7 ++
      ['-'] ++ byteToHex (128 + b8 % 64) ++ byteToHex b9 ++
      ['-'] ++ byteToHex b10 ++ byteToHex b11 ++ byteToHex b12 ++
      byteToHex b13 ++ byteToHex b14 ++ byteToHex b15)
  | _ => ""

/-- Is `c` a lowercase hexadecimal digit (code points 48-57 or 97-102)? -/
def isHexChar (c : Char) : Bool :=
  (48 ≤ c.toNat && c.toNat ≤ 57) || (97 ≤ c.toNat && c.toNat ≤ 102)

/-- Decidable check of the UUID regex
`[0-9a-f]{8}-[0-9a-f]{4}-4[0-9a-f]{3}-[89ab][0-9a-f]{3}-[0-9a-f]{12}`. -/
def uuidV4Shape (s : String) : Bool :=
  match s.data with
  | a0 :: a1 :: a2 :: a3 :: a4 :: a5 :: a6 :: a7 :: d0 :: b0 :: b1 :: b2 :: b3 :: d1 ::
    v :: c0 :: c1 :: c2 :: d2 :: w :: e0 :: e1 :: e2 :: d3 ::
    f0 :: f1 :: f2 :: f3 :: f4 :: f5 :: f6 :: f7 :: f8 :: f9 :: f10 :: f11 :: [] =>
    ([a0, a1, a2, a3, a4, a5, a6, a7, b0, b1, b2, b3, c0, c1, c2,
      e0, e1, e2, f0, f1, f2, f3, f4, f5, f6, f7, f8, f9, f10, f11].all isHexChar)
      && (d0 == '-') && (d1 == '-') && (d2 == '-') && (d3 == '-')
      && (v == '4') && ((['8', '9', 'a', 'b']).contains w)
  | _ => false

/-!
The driver (`main`, src/main.rs lines 97-226).  Standard streams and the
filesystem are modelled explicitly: `fs` maps each path to what opening it
yields (an open error, or a byte source), and a run produces the stdout
lines, the stderr messages, the paths opened (in order), and the process
exit status.  `fn main()` returns `()` and never calls `process::exit`, so
every path of the embedded `main` ends with exit status `0`, the value a
normally-returning unit `main` gives the process.
-/

/-- The four algorithm variants (src/main.rs `enum HashKind`). -/
inductive HashKind
  | xxh3
  | xxh3_64
  | xxh64
  | xxh32
deriving DecidableEq, Repr

/-- What opening a path yields: an `io::Error` display text from
`File::open`, or an opened byte source. -/
inductive FileFate
  | openErr (reason : String)
  | src (events : List Delivery)
deriving DecidableEq

/-- Observable outcome of one invocation: stdout lines, stderr messages,
the paths opened in order, and the process exit status. -/
structure RunResult where
  out : List String
  err : List String
  opened : List String
  exit : Nat
deriving DecidableEq, Repr

/-- The `HashKind::Xxh3` per-file loop (src/main.rs lines 105-136): open the
file (abort on failure), drain the reader (abort on read error), feeding
each chunk to `hasher.update` — pure appends, so the chunk-by-chunk updates
equal one fold over the chunk sequence — then `digest128`, print the line
(UUID form when the flag is set), `reset`, and continue with the next file.
`H3` is the abstract 128-bit finalization. -/
def loopXxh3 (H3 : Nat → List Nat → Nat) (uuid : Bool) (N : Nat) (hasher : Xxh3)
    (files : List String) (fs : String → FileFate) : RunResult :=
  match files with
  | [] => ⟨[], [], [], 0⟩
  | file :: rest =>
    match fs file with
    | FileFate.openErr reason =>
      ⟨[], [file ++ ": cannot open: " ++ reason], [file], 0⟩
    | FileFate.src events =>
      match readAll N events with
      | Except.error e => ⟨[], [file ++ ": error reading: " ++ e], [file], 0⟩
      | Except.ok chunks =>
        let hasher := chunks.foldl Xxh3.update hasher
        let hash := hasher.digest128 H3
        let line :=
          if uuid then file ++ ":" ++ uuidV4OfBytes (toLeBytes hash)
          else file ++ ":" ++ toString hash
        let r := loopXxh3 H3 uuid N hasher.reset rest fs
        ⟨line :: r.out, r.err, file :: r.opened, r.exit⟩

/-- The `HashKind::Xxh3_64` per-file loop (src/main.rs lines 138-165): as
`loopXxh3` but emitting the 64-bit `digest` numerically; the UUID flag is
not consulted. -/
def loopXxh3_64 (H3s : Nat → List Nat → Nat) (N : Nat) (hasher : Xxh3)
    (files : List String) (fs : String → FileFate) : RunResult :=
  match files with
  | [] => ⟨[], [], [], 0⟩
  | file :: rest =>
    match fs file with
    | FileFate.openErr reason =>
      ⟨[], [file ++ ": cannot open: " ++ reason], [file], 0⟩
    | FileFate.src events =>
      match readAll N events with
      | Except.error e => ⟨[], [file ++ ": error reading: " ++ e], [file], 0⟩
      | Except.ok chunks =>
        let hasher := chunks.foldl Xxh3.update hasher
        let hash := hasher.digest H3s
        let line := file ++ ":" ++ toString hash
        let r := loopXxh3_64 H3s N hasher.reset rest fs
        ⟨line :: r.out, r.err, file :: r.opened, r.exit⟩

/-- The `HashKind::Xxh64` per-file loop (src/main.rs lines 166-192):
`reset` takes the seed as an explicit argument. -/
def loopXxh64 (H64 : Nat → List Nat → Nat) (N : Nat) (seed : Nat) (hasher : Xxh64)
    (files : List String) (fs : String → FileFate) : RunResult :=
  match files with
  | [] => ⟨[], [], [], 0⟩
  | file :: rest =>
    match fs file with
    | FileFate.openErr reason =>
      ⟨[], [file ++ ": cannot open: " ++ reason], [file], 0⟩
    | FileFate.src events =>
      match readAll N events with
      | Except.error e => ⟨[], [file ++ ": error reading: " ++ e], [file], 0⟩
      | Except.ok chunks =>
        let hasher := chunks.foldl Xxh64.update hasher
        let hash := hasher.digest H64
        let line := file ++ ":" ++ toString hash
        let r := loopXxh64 H64 N seed (hasher.reset seed) rest fs
        ⟨line :: r.out, r.err, file :: r.opened, r.exit⟩

/-- The `HashKind::Xxh32` per-file loop (src/main.rs lines 200-226), run
with the already-validated 32-bit seed. -/
def loopXxh32 (H32 : Nat → List Nat → Nat) (N : Nat) (seed : Nat) (hasher : Xxh32)
    (files : List String) (fs : String → FileFate) : RunResult :=
  match files with
  | [] => ⟨[], [], [], 0⟩
  | file :: rest =>
    match fs file with
    | FileFate.openErr reason =>
      ⟨[], [file ++ ": cannot open: " ++ reason], [file], 0⟩
    | FileFate.src events =>
      match readAll N events with
      | Except.error e => ⟨[], [file ++ ": error reading: " ++ e], [file], 0⟩
      | Except.ok chunks =>
        let hasher := chunks.foldl Xxh32.update hasher
        let hash := hasher.digest H32
        let line := file ++ ":" ++ toString hash
        let r := loopXxh32 H32 N seed (hasher.reset seed) rest fs
        ⟨line :: r.out, r.err, file :: r.opened, r.exit⟩

/-- `main` (src/main.rs lines 97-227) after argument parsing: `seed`,
`uuid`, `kind` and the file list are the parsed `Cli` fields; `N = 4096` in
the program (`open_file`).  An empty file list prints the notice and
returns; the 32-bit variant first converts the `u64` seed with
`try_into::<u32>()`, which succeeds exactly for `seed < 2^32`, and aborts
with the configuration error otherwise, before opening any file.  All paths
return `()` from `main`, hence exit status `0`.  `H3`, `H3s`, `H64`, `H32`
are the abstract finalization functions of the out-of-scope algorithms. -/
def mainRun (H3 H3s H64 H32 : Nat → List Nat → Nat) (N : Nat) (seed : Nat)
    (uuid : Bool) (kind : HashKind) (files : List String)
    (fs : String → FileFate) : RunResult :=
  if files = [] then ⟨["No file specified..."], [], [], 0⟩
  else
    match kind with
    | HashKind.xxh3 => loopXxh3 H3 uuid N (Xxh3.with_seed seed) files fs
    | HashKind.xxh3_64 => loopXxh3_64 H3s N (Xxh3.with_seed seed) files fs
    | HashKind.xxh64 => loopXxh64 H64 N seed (Xxh64.new seed) files fs
    | HashKind.xxh32 =>
      if seed < 4294967296 then loopXxh32 H32 N seed (Xxh32.new seed) files fs
      else ⟨[], [toString seed ++ " is not valid seed for 32bit hash"], [], 0⟩

/-- Processing `file` aborts the invocation with stderr message `msg`:
either opening fails (`"<file>: cannot open: <reason>"`) or a read fails
(`"<file>: error reading: <reason>"`). -/
def failsAt (N : Nat) (fs : String → FileFate) (file msg : String) : Prop :=
  (∃ r, fs file = FileFate.openErr r ∧ msg = file ++ ": cannot open: " ++ r) ∨
  (∃ ev e, fs file = FileFate.src ev ∧ readAll N ev = Except.error e ∧
    msg = file ++ ": error reading: " ++ e)

/-!
Helper lemmas about the chunked reader.
-/

deriving instance DecidableEq for Except

open ChunkedReader

/-- A read into an empty remaining slice returns zero bytes and ends the loop. -/
theorem nextLoop_zero (src : List Delivery) (acc : List Nat) :
    nextLoop src 0 acc = (Except.ok acc, src) := by
  rw [ChunkedReader.nextLoop.eq_def]
  simp

/-- The accumulated bytes only grow across the read loop. -/
theorem nextLoop_ok_prefix :
    ∀ (src : List Delivery) (r : Nat) (acc acc' : List Nat) (src' : List Delivery),
      nextLoop src r acc = (Except.ok acc', src') → ∃ t, acc' = acc ++ t := by
  intro src
  induction src with
  | nil =>
    intro r acc acc' src' h
    rw [ChunkedReader.nextLoop.eq_def] at h
    by_cases hr : r = 0 <;> simp [hr] at h <;> exact ⟨[], by simp [h.1]⟩
  | cons d rest ih =>
    intro r acc acc' src' h
    rw [ChunkedReader.nextLoop.eq_def] at h
    by_cases hr : r = 0
    · simp [hr] at h
      exact ⟨[], by simp [h.1]⟩
    · cases d with
      | intr =>
        simp [hr] at h
        exact ih r acc acc' src' h
      | fail e => simp [hr] at h
      | chunk c =>
        by_cases hc : c.length = 0
        · simp [hr, hc] at h
          exact ⟨[], by simp [h.1]⟩
        · by_cases hcr : c.length ≤ r
          · simp [hr, hc, hcr] at h
            obtain ⟨t, ht⟩ := ih _ _ _ _ h
            exact ⟨c ++ t, by simp [ht]⟩
          · simp [hr, hc, hcr] at h
            exact ⟨c.take r, by simp [h.1]⟩

/-- Bytes handed to the caller come out of the source: the source shrinks by
at least as much as the accumulator grows. -/
theorem nextLoop_size :
    ∀ (src : List Delivery) (r : Nat) (acc acc' : List Nat) (src' : List Delivery),
      nextLoop src r acc = (Except.ok acc', src') →
      srcSize src' + acc'.length ≤ srcSize src + acc.length := by
  intro src
  induction src with
  | nil =>
    intro r acc acc' src' h
    rw [ChunkedReader.nextLoop.eq_def] at h
    by_cases hr : r = 0 <;> simp [hr] at h <;> obtain ⟨h1, h2⟩ := h <;>
      subst h1 <;> subst h2 <;> simp [srcSize]
  | cons d rest ih =>
    intro r acc acc' src' h
    rw [ChunkedReader.nextLoop.eq_def] at h
    by_cases hr : r = 0
    · simp [hr] at h
      obtain ⟨h1, h2⟩ := h
      subst h1; subst h2
      simp
    · cases d with
      | intr =>
        simp [hr] at h
        have := ih r acc acc' src' h
        simp only [srcSize]
        omega
      | fail e => simp [hr] at h
      | chunk c =>
        by_cases hc : c.length = 0
        · simp [hr, hc] at h
          obtain ⟨h1, h2⟩ := h
          subst h1; subst h2
          simp only [srcSize]
          omega
        · by_cases hcr : c.length ≤ r
          · simp [hr, hc, hcr] at h
            have := ih _ _ _ _ h
            simp only [srcSize, List.length_append] at this ⊢
            omega
          · simp [hr, hc, hcr] at h
            obtain ⟨h1, h2⟩ := h
            subst h1; subst h2
            simp only [srcSize, List.length_append, List.length_take, List.length_drop]
            rw [Nat.min_eq_left (by omega)]
            omega

/-- The accumulator grows by at most the remaining buffer space. -/
theorem nextLoop_len :
    ∀ (src : List Delivery) (r : Nat) (acc acc' : List Nat) (src' : List Delivery),
      nextLoop src r acc = (Except.ok acc', src') →
      acc'.length ≤ acc.length + r := by
  intro src
  induction src with
  | nil =>
    intro r acc acc' src' h
    rw [ChunkedReader.nextLoop.eq_def] at h
    by_cases hr : r = 0 <;> simp [hr] at h <;> simp [← h.1]
  | cons d rest ih =>
    intro r acc acc' src' h
    rw [ChunkedReader.nextLoop.eq_def] at h
    by_cases hr : r = 0
    · simp [hr] at h
      simp [← h.1]
    · cases d with
      | intr =>
        simp [hr] at h
        exact ih r acc acc' src' h
      | fail e => simp [hr] at h
      | chunk c =>
        by_cases hc : c.length = 0
        · simp [hr, hc] at h
          simp [← h.1]
        · by_cases hcr : c.length ≤ r
          · simp [hr, hc, hcr] at h
            have := ih _ _ _ _ h
            simp only [List.length_append] at this
            omega
          · simp [hr, hc, hcr] at h
            obtain ⟨h1, h2⟩ := h
            subst h1
            simp only [List.length_append, List.length_take]
            rw [Nat.min_eq_left (by omega)]

/-- A `next` call that returns a chunk strictly shrinks the source. -/
theorem next_some_size (N : Nat) (src : List Delivery) (c : List Nat)
    (src' : List Delivery) (h : ChunkedReader.next N src = (Except.ok (some c), src')) :
    srcSize src' < srcSize src := by
  rw [ChunkedReader.next] at h
  rcases hl : nextLoop src N [] with ⟨res, rest⟩
  rw [hl] at h
  cases res with
  | error e => simp at h
  | ok acc =>
    by_cases ha : acc.length = 0 <;> simp [ha] at h
    obtain ⟨h1, h2⟩ := h
    subst h1; subst h2
    have := nextLoop_size src N [] acc rest hl
    simp at this
    omega

/-- `readAllAux` is insensitive to the fuel once it exceeds the source size. -/
theorem readAllAux_eq :
    ∀ (fuel fuel' N : Nat) (src : List Delivery), srcSize src < fuel →
      srcSize src < fuel' → readAllAux fuel N src = readAllAux fuel' N src := by
  intro fuel
  induction fuel with
  | zero => intro fuel' N src h h'; omega
  | succ fuel ih =>
    intro fuel' N src h h'
    cases fuel' with
    | zero => omega
    | succ fuel' =>
      simp only [readAllAux]
      rcases hn : ChunkedReader.next N src with ⟨res, rest⟩
      cases res with
      | error e => rfl
      | ok o =>
        cases o with
        | none => rfl
        | some c =>
          have hs := next_some_size N src c rest hn
          dsimp only
          rw [ih fuel' N rest (by omega) (by omega)]

/-- Unfolding `readAll` when `next` returns the terminal signal. -/
theorem readAll_none (N : Nat) (src : List Delivery)
    (h : (ChunkedReader.next N src).1 = Except.ok none) :
    readAll N src = Except.ok [] := by
  rw [readAll]
  simp only [readAllAux]
  rcases hn : ChunkedReader.next N src with ⟨res, rest⟩
  rw [hn] at h
  simp at h
  subst h
  rfl

/-- Unfolding `readAll` when `next` returns a chunk. -/
theorem readAll_some (N : Nat) (src : List Delivery) (c : List Nat)
    (rest : List Delivery) (h : ChunkedReader.next N src = (Except.ok (some c), rest)) :
    readAll N src = (readAll N rest).map (fun cs => c :: cs) := by
  have hs := next_some_size N src c rest h
  conv_lhs => rw [readAll]
  simp only [readAllAux]
  rw [h]
  dsimp only
  rw [readAllAux_eq (srcSize src) (srcSize rest + 1) N rest (by omega) (by omega)]
  rw [← readAll]

/-- Unfolding `readAll` when `next` propagates a read error. -/
theorem readAll_err (N : Nat) (src : List Delivery) (e : String)
    (h : (ChunkedReader.next N src).1 = Except.error e) :
    readAll N src = Except.error e := by
  rw [readAll]
  simp only [readAllAux]
  rcases hn : ChunkedReader.next N src with ⟨res, rest⟩
  rw [hn] at h
  simp at h
  subst h
  rfl

/-- On an already-exhausted source the loop breaks immediately. -/
theorem nextLoop_nil (r : Nat) (acc : List Nat) :
    nextLoop [] r acc = (Except.ok acc, []) := by
  rw [ChunkedReader.nextLoop.eq_def]
  by_cases hr : r = 0 <;> simp [hr]

/-- `next` on an exhausted source returns the terminal signal and leaves the
source exhausted. -/
theorem next_nil (N : Nat) : ChunkedReader.next N [] = (Except.ok none, []) := by
  rw [ChunkedReader.next, nextLoop_nil]
  simp

/-- Read loop over a source of pure, non-empty deliveries: the result is the
concatenation of the deliveries, cut off at the remaining capacity. -/
theorem nextLoop_chunks :
    ∀ (ds : List (List Nat)) (r : Nat) (acc : List Nat), (∀ d ∈ ds, d ≠ []) →
      (nextLoop (ds.map Delivery.chunk) r acc).1 =
        Except.ok (acc ++ ds.flatten.take r) := by
  intro ds
  induction ds with
  | nil =>
    intro r acc _
    simp [nextLoop_nil]
  | cons d ds ih =>
    intro r acc h
    have hd : d ≠ [] := h d (by simp)
    have hdl : ¬d.length = 0 := by simpa using hd
    by_cases hr : r = 0
    · subst hr
      rw [nextLoop_zero]
      simp
    · rw [ChunkedReader.nextLoop.eq_def]
      by_cases hcr : d.length ≤ r
      · simp only [List.map_cons, hr, hdl, hcr, if_false, if_true, ite_false, ite_true]
        rw [ih (r - d.length) (acc ++ d) (fun x hx => h x (List.mem_cons_of_mem d hx))]
        simp [List.take_append_eq_append_take, List.take_of_length_le hcr,
          Nat.sub_eq_zero_of_le, List.append_assoc]
      · simp only [List.map_cons, hr, hdl, hcr, if_false, if_true, ite_false, ite_true]
        simp [List.take_append_eq_append_take, Nat.sub_eq_zero_of_le (by omega : r ≤ d.length)]

/-- When the source has no more than the remaining capacity, the loop drains
it completely and leaves it exhausted. -/
theorem nextLoop_chunks_all :
    ∀ (ds : List (List Nat)) (r : Nat) (acc : List Nat), (∀ d ∈ ds, d ≠ []) →
      ds.flatten.length ≤ r →
      nextLoop (ds.map Delivery.chunk) r acc = (Except.ok (acc ++ ds.flatten), []) := by
  intro ds
  induction ds with
  | nil =>
    intro r acc _ _
    simp [nextLoop_nil]
  | cons d ds ih =>
    intro r acc h hlen
    have hd : d ≠ [] := h d (by simp)
    have hdl : ¬d.length = 0 := by simpa using hd
    simp only [List.flatten_cons, List.length_append] at hlen
    have hr : ¬r = 0 := by omega
    have hcr : d.length ≤ r := by omega
    rw [ChunkedReader.nextLoop.eq_def]
    simp only [List.map_cons, hr, hdl, hcr, if_false, if_true, ite_false, ite_true]
    rw [ih (r - d.length) (acc ++ d) (fun x hx => h x (List.mem_cons_of_mem d hx)) (by omega)]
    simp

/-- If the loop accumulated nothing and ended without error, the source was
already exhausted (given the source never signals a spurious empty read). -/
theorem nextLoop_ok_self_nil :
    ∀ (src : List Delivery) (r : Nat) (acc : List Nat) (src' : List Delivery),
      Delivery.chunk [] ∉ src → r ≠ 0 →
      nextLoop src r acc = (Except.ok acc, src') → src' = [] := by
  intro src
  induction src with
  | nil =>
    intro r acc src' _ hr h
    rw [nextLoop_nil] at h
    simp at h
    exact h
  | cons d rest ih =>
    intro r acc src' hwf hr h
    rw [ChunkedReader.nextLoop.eq_def] at h
    cases d with
    | intr =>
      simp [hr] at h
      exact ih r acc src' (fun hc => hwf (List.mem_cons_of_mem _ hc)) hr h
    | fail e => simp [hr] at h
    | chunk c =>
      have hc : c ≠ [] := by
        intro hc
        exact hwf (by simp [hc])
      have hdl : ¬c.length = 0 := by simpa using hc
      by_cases hcr : c.length ≤ r
      · simp only [hr, hdl, hcr, if_false, if_true, ite_false, ite_true] at h
        obtain ⟨t, ht⟩ := nextLoop_ok_prefix rest (r - c.length) (acc ++ c) acc src' h
        have hlen := congrArg List.length ht
        rw [List.length_append, List.length_append] at hlen
        omega
      · simp only [hr, hdl, hcr, if_false, if_true, ite_false, ite_true] at h
        have hfst := congrArg (fun p => p.1) h
        simp at hfst
        rcases hfst with h0 | h0
        · exact absurd h0 hr
        · exact absurd h0 hc

/-- Once `next` reports the terminal signal, the source is exhausted. -/
theorem next_none_nil (N : Nat) (src src' : List Delivery) (hN : N ≠ 0)
    (hwf : Delivery.chunk [] ∉ src)
    (h : ChunkedReader.next N src = (Except.ok none, src')) : src' = [] := by
  rw [ChunkedReader.next] at h
  rcases hl : nextLoop src N [] with ⟨res, rest⟩
  rw [hl] at h
  cases res with
  | error e => simp at h
  | ok acc =>
    by_cases ha : acc.length = 0 <;> simp [ha] at h
    have hacc : acc = [] := List.length_eq_zero.mp ha
    subst hacc
    rw [← h]
    exact nextLoop_ok_self_nil src N [] rest hwf hN hl

/-- Removing the interrupted-read events from the source does not change the
loop's result, and leaves the source remainder similarly stripped: the loop
retries interrupted reads without advancing the cursor. -/
theorem stripIntr_nextLoop :
    ∀ (src : List Delivery) (r : Nat) (acc : List Nat),
      nextLoop (stripIntr src) r acc =
        ((nextLoop src r acc).1, stripIntr (nextLoop src r acc).2) := by
  intro src
  induction src with
  | nil =>
    intro r acc
    simp [stripIntr, nextLoop_nil]
  | cons d rest ih =>
    intro r acc
    by_cases hr : r = 0
    · subst hr
      rw [nextLoop_zero, nextLoop_zero]
    · cases d with
      | intr =>
        have hs : stripIntr (Delivery.intr :: rest) = stripIntr rest := rfl
        rw [hs, ih]
        conv_rhs => rw [ChunkedReader.nextLoop.eq_def]
        simp [hr]
      | fail e =>
        have hs : stripIntr (Delivery.fail e :: rest) = Delivery.fail e :: stripIntr rest := rfl
        rw [hs, ChunkedReader.nextLoop.eq_def, ChunkedReader.nextLoop.eq_def]
        simp [hr, stripIntr]
      | chunk c =>
        have hs : stripIntr (Delivery.chunk c :: rest) = Delivery.chunk c :: stripIntr rest := rfl
        rw [hs, ChunkedReader.nextLoop.eq_def, ChunkedReader.nextLoop.eq_def]
        by_cases hc : c.length = 0
        · simp [hr, hc, stripIntr]
        · by_cases hcr : c.length ≤ r
          · simp only [hr, hc, hcr, if_false, if_true, ite_false, ite_true]
            exact ih (r - c.length) (acc ++ c)
          · simp [hr, hc, hcr, stripIntr]

/-- Interrupt transparency at the level of one `next` call. -/
theorem stripIntr_next (N : Nat) (src : List Delivery) :
    ChunkedReader.next N (stripIntr src) =
      ((ChunkedReader.next N src).1, stripIntr (ChunkedReader.next N src).2) := by
  rw [ChunkedReader.next, ChunkedReader.next, stripIntr_nextLoop]
  rcases h : nextLoop src N [] with ⟨res, rest⟩
  cases res with
  | error e => simp
  | ok acc =>
    by_cases ha : acc.length = 0 <;> simp [ha]

/-- A source of weight zero has no events. -/
theorem srcSize_eq_zero : ∀ (src : List Delivery), srcSize src = 0 → src = [] := by
  intro src h
  cases src with
  | nil => rfl
  | cons d rest =>
    cases d <;> simp [srcSize] at h

/-- Interrupt transparency for the whole sequence of chunks: a source that
reports interrupted reads any finite number of times yields exactly the
chunk sequence (and the same error outcome) of the source with those events
removed. -/
theorem readAll_stripIntr (N : Nat) :
    ∀ (src : List Delivery), readAll N (stripIntr src) = readAll N src := by
  suffices h : ∀ (n : Nat) (src : List Delivery), srcSize src ≤ n →
      readAll N (stripIntr src) = readAll N src from
    fun src => h (srcSize src) src le_rfl
  intro n
  induction n with
  | zero =>
    intro src hs
    have : src = [] := srcSize_eq_zero src (by omega)
    subst this
    rfl
  | succ n ih =>
    intro src hs
    rcases hnx : ChunkedReader.next N src with ⟨res, rest⟩
    have hstrip : ChunkedReader.next N (stripIntr src) = (res, stripIntr rest) := by
      rw [stripIntr_next, hnx]
    cases res with
    | error e =>
      rw [readAll_err N src e (by rw [hnx]), readAll_err N (stripIntr src) e (by rw [hstrip])]
    | ok o =>
      cases o with
      | none =>
        rw [readAll_none N src (by rw [hnx]), readAll_none N (stripIntr src) (by rw [hstrip])]
      | some c =>
        have hsz := next_some_size N src c rest hnx
        rw [readAll_some N src c rest hnx, readAll_some N (stripIntr src) c (stripIntr rest) hstrip]
        rw [ih rest (by omega)]

/-!
Claim theorems for the chunked reader.
-/

/-- Claim C1: for every capacity and every sequence of successful non-empty
reads the source delivers, a single `ChunkedReader::next` call returns the
concatenation of the successive reads cut off at the buffer capacity `N`:
the loop keeps reading until the buffer is completely full or the source is
exhausted, so the chunk is shorter than `N` only when it contains
everything the source had available. -/
theorem chunkedReader_next_amortizes (N : Nat) (ds : List (List Nat))
    (h : ∀ d ∈ ds, d ≠ []) :
    (ChunkedReader.next N (ds.map Delivery.chunk)).1 =
      Except.ok (if ds.flatten.take N = [] then none
        else some (ds.flatten.take N)) := by
  have hc := nextLoop_chunks ds N [] h
  rcases hl : nextLoop (ds.map Delivery.chunk) N [] with ⟨res, rest⟩
  rw [hl] at hc
  simp only [List.nil_append] at hc
  rw [ChunkedReader.next, hl]
  subst hc
  dsimp only
  by_cases he : ds.flatten.take N = []
  · have h0 : (ds.flatten.take N).length = 0 := by rw [he]; rfl
    rw [if_pos h0, if_pos he]
  · have hlen : ¬(ds.flatten.take N).length = 0 := fun hx =>
      he (List.length_eq_zero.mp hx)
    rw [if_neg hlen, if_neg he]

/-- Witness for C1 at a concrete source. -/
theorem chunkedReader_next_amortizes_witness :
    (ChunkedReader.next 4 (([[1, 2], [3, 4, 5]] : List (List Nat)).map Delivery.chunk)).1 =
      Except.ok (if ([[1, 2], [3, 4, 5]] : List (List Nat)).flatten.take 4 = [] then none
        else some (([[1, 2], [3, 4, 5]] : List (List Nat)).flatten.take 4)) :=
  chunkedReader_next_amortizes 4 [[1, 2], [3, 4, 5]] (by decide)

/-- Claim C4: interrupted reads are transparent.  A run over a source with
any finite number of interrupted-read events interleaved yields, across all
`next` calls, exactly the chunk sequence (same contents, same boundaries)
and the same final outcome as the run over the source with those events
removed; moreover a single interrupted read leaves cursor and accumulated
bytes unchanged. -/
theorem chunkedReader_interrupt_transparent :
    (∀ (N : Nat) (src : List Delivery), readAll N (stripIntr src) = readAll N src) ∧
    (∀ (rest : List Delivery) (r : Nat) (acc : List Nat), r ≠ 0 →
      nextLoop (Delivery.intr :: rest) r acc = nextLoop rest r acc) := by
  constructor
  · exact fun N src => readAll_stripIntr N src
  · intro rest r acc hr
    rw [ChunkedReader.nextLoop.eq_def]
    simp [hr]

/-- Witness for C4 at a concrete interrupted read. -/
theorem chunkedReader_interrupt_transparent_witness :
    nextLoop (Delivery.intr :: [Delivery.chunk [7]]) 3 [] =
      nextLoop [Delivery.chunk [7]] 3 [] :=
  chunkedReader_interrupt_transparent.2 [Delivery.chunk [7]] 3 [] (by decide)

/-- Claim C5: once the source is exhausted, `next` returns the terminal
signal `Ok(None)` and every further call returns it again; and a partially
filled buffer ended by a zero-byte read is still returned as a non-empty,
non-error chunk on that same call, leaving the source exhausted. -/
theorem chunkedReader_terminal_persistent (N : Nat) (src : List Delivery)
    (ds : List (List Nat)) :
    (∀ src', N ≠ 0 → Delivery.chunk [] ∉ src →
      ChunkedReader.next N src = (Except.ok none, src') →
      src' = [] ∧ ChunkedReader.next N src' = (Except.ok none, src')) ∧
    ((∀ d ∈ ds, d ≠ []) → ds.flatten ≠ [] → ds.flatten.length ≤ N →
      ChunkedReader.next N (ds.map Delivery.chunk) = (Except.ok (some ds.flatten), [])) := by
  constructor
  · intro src' hN hwf h
    have hnil := next_none_nil N src src' hN hwf h
    subst hnil
    exact ⟨rfl, next_nil N⟩
  · intro h hne hlen
    rw [ChunkedReader.next, nextLoop_chunks_all ds N [] h hlen]
    dsimp only [List.nil_append]
    have hz : ¬(ds.flatten).length = 0 := fun hx => hne (List.length_eq_zero.mp hx)
    rw [if_neg hz]

/-- Witness for C5 at concrete sources. -/
theorem chunkedReader_terminal_persistent_witness :
    (([] : List Delivery) = [] ∧
      ChunkedReader.next 4 [] = (Except.ok none, [])) ∧
    ChunkedReader.next 4 (([[9, 8]] : List (List Nat)).map Delivery.chunk) =
      (Except.ok (some [9, 8]), []) :=
  ⟨(chunkedReader_terminal_persistent 4 [Delivery.intr] [[9, 8]]).1 []
      (by decide) (by decide) (by decide),
   (chunkedReader_terminal_persistent 4 [Delivery.intr] [[9, 8]]).2
      (by decide) (by decide) (by decide)⟩

/-- Claim C10: the read loop is a total function of any finite source (each
successful read strictly shrinks the unfilled remainder, an interrupted
read consumes one of the finitely many interrupt events, and a read into an
empty remainder returns zero bytes, ending the loop); consequently every
chunk `next` returns is non-empty and no longer than the capacity. -/
theorem chunkedReader_chunk_length_bounds (N : Nat) (src : List Delivery)
    (c : List Nat) (src' : List Delivery)
    (h : ChunkedReader.next N src = (Except.ok (some c), src')) :
    1 ≤ c.length ∧ c.length ≤ N := by
  rw [ChunkedReader.next] at h
  rcases hl : nextLoop src N [] with ⟨res, rest⟩
  rw [hl] at h
  cases res with
  | error e => simp at h
  | ok acc =>
    by_cases ha : acc.length = 0 <;> simp [ha] at h
    obtain ⟨h1, h2⟩ := h
    subst h1
    have := nextLoop_len src N [] acc rest hl
    simp at this
    omega

/-- Witness for C10 at a concrete source. -/
theorem chunkedReader_chunk_length_bounds_witness :
    1 ≤ ([1, 2] : List Nat).length ∧ ([1, 2] : List Nat).length ≤ 4 :=
  chunkedReader_chunk_length_bounds 4 [Delivery.chunk [1, 2]] [1, 2] [] (by decide)

/-!
Claim theorems for the hash accumulators and the driver.
-/

/-- Folding `update` over chunk sequences preserves the stored seed. -/
theorem xxh3_foldl_update_seed (A : List (List Nat)) :
    ∀ (h : Xxh3), (A.foldl Xxh3.update h).seed = h.seed := by
  induction A with
  | nil => intro h; rfl
  | cons a A ih => intro h; rw [List.foldl_cons, ih]; rfl

/-- Claim C2: for every finalization function, seed and pair of chunked
byte streams `A` and `B`, hashing `A`, taking the digest, resetting, then
hashing `B` gives `B` the digest of a freshly constructed accumulator with
the same seed — for all four variants (`digest` is a pure, non-destructive
finalization; `Xxh3.reset` preserves the construction seed, while
`Xxh64.reset`/`Xxh32.reset` take the seed as an explicit argument, as in
`main`'s per-file loops). -/
theorem accumulator_reset_fresh_equiv (H : Nat → List Nat → Nat) (seed : Nat)
    (A B : List (List Nat)) :
    (Xxh3.digest128 H (B.foldl Xxh3.update (Xxh3.reset (A.foldl Xxh3.update (Xxh3.with_seed seed)))) =
      Xxh3.digest128 H (B.foldl Xxh3.update (Xxh3.with_seed seed))) ∧
    (Xxh3.digest H (B.foldl Xxh3.update (Xxh3.reset (A.foldl Xxh3.update (Xxh3.with_seed seed)))) =
      Xxh3.digest H (B.foldl Xxh3.update (Xxh3.with_seed seed))) ∧
    (Xxh64.digest H (B.foldl Xxh64.update (Xxh64.reset (A.foldl Xxh64.update (Xxh64.new seed)) seed)) =
      Xxh64.digest H (B.foldl Xxh64.update (Xxh64.new seed))) ∧
    (Xxh32.digest H (B.foldl Xxh32.update (Xxh32.reset (A.foldl Xxh32.update (Xxh32.new seed)) seed)) =
      Xxh32.digest H (B.foldl Xxh32.update (Xxh32.new seed))) := by
  have h3 : Xxh3.reset (A.foldl Xxh3.update (Xxh3.with_seed seed)) = Xxh3.with_seed seed := by
    rw [Xxh3.reset]
    rw [show (Xxh3.with_seed seed) = ⟨seed, []⟩ from rfl]
    rw [show (A.foldl Xxh3.update ⟨seed, []⟩).seed = seed from xxh3_foldl_update_seed A ⟨seed, []⟩]
  refine ⟨?_, ?_, ?_, ?_⟩
  · rw [h3]
  · rw [h3]
  · rw [show Xxh64.reset (A.foldl Xxh64.update (Xxh64.new seed)) seed = Xxh64.new seed from rfl]
  · rw [show Xxh32.reset (A.foldl Xxh32.update (Xxh32.new seed)) seed = Xxh32.new seed from rfl]

/-!
UUID rendering lemmas.
-/

/-- Hex digits of nibbles are lowercase hex characters. -/
theorem hexDigit_isHex : ∀ n, n < 16 → isHexChar (hexDigit n) = true := by decide

/-- The forced version nibble renders as the character `4`. -/
theorem version_char : ∀ m, m < 16 → hexDigit ((64 + m) / 16) = '4' := by decide

/-- The forced variant bits render the first character of the fourth group
as one of `8`, `9`, `a`, `b`. -/
theorem variant_char : ∀ m, m < 64 →
    ((['8', '9', 'a', 'b']).contains (hexDigit ((128 + m) / 16))) = true := by decide

/-- Sixteen bytes render as a version-4, variant-10 RFC 4122 UUID string. -/
theorem uuidV4Shape_of_bytes (b0 b1 b2 b3 b4 b5 b6 b7 b8 b9 b10 b11 b12 b13 b14 b15 : Nat)
    (h0 : b0 < 256) (h1 : b1 < 256) (h2 : b2 < 256) (h3 : b3 < 256)
    (h4 : b4 < 256) (h5 : b5 < 256) (h7 : b7 < 256)
    (h9 : b9 < 256) (h10 : b10 < 256) (h11 : b11 < 256)
    (h12 : b12 < 256) (h13 : b13 < 256) (h14 : b14 < 256) (h15 : b15 < 256) :
    uuidV4Shape (uuidV4OfBytes [b0, b1, b2, b3, b4, b5, b6, b7, b8, b9, b10,
      b11, b12, b13, b14, b15]) = true := by
  rw [uuidV4OfBytes, uuidV4Shape]
  simp only [byteToHex, List.cons_append, List.nil_append]
  simp only [List.all_cons, List.all_nil, Bool.and_eq_true, beq_iff_eq]
  repeat' apply And.intro
  all_goals first
    | trivial
    | exact hexDigit_isHex _ (by omega)
    | exact version_char _ (by omega)
    | exact variant_char _ (by omega)

/-- The UUID rendering of any 128-bit digest has the RFC 4122 v4 shape. -/
theorem uuidV4Shape_toLeBytes (h : Nat) :
    uuidV4Shape (uuidV4OfBytes (toLeBytes h)) = true := by
  rw [toLeBytes]
  exact uuidV4Shape_of_bytes _ _ _ _ _ _ _ _ _ _ _ _ _ _ _ _
    (Nat.mod_lt _ (by norm_num)) (Nat.mod_lt _ (by norm_num))
    (Nat.mod_lt _ (by norm_num)) (Nat.mod_lt _ (by norm_num))
    (Nat.mod_lt _ (by norm_num)) (Nat.mod_lt _ (by norm_num))
    (Nat.mod_lt _ (by norm_num)) (Nat.mod_lt _ (by norm_num))
    (Nat.mod_lt _ (by norm_num)) (Nat.mod_lt _ (by norm_num))
    (Nat.mod_lt _ (by norm_num)) (Nat.mod_lt _ (by norm_num))
    (Nat.mod_lt _ (by norm_num)) (Nat.mod_lt _ (by norm_num))

/-- Every stdout line of the `Xxh3` loop with the UUID flag set carries a
UUID-shaped digest portion. -/
theorem loopXxh3_uuid_lines (H3 : Nat → List Nat → Nat) (N : Nat) :
    ∀ (files : List String) (hasher : Xxh3) (fs : String → FileFate) (line : String),
      line ∈ (loopXxh3 H3 true N hasher files fs).out →
      ∃ f u, line = f ++ ":" ++ u ∧ uuidV4Shape u = true := by
  intro files
  induction files with
  | nil =>
    intro hasher fs line hmem
    simp [loopXxh3] at hmem
  | cons file rest ih =>
    intro hasher fs line hmem
    rw [loopXxh3] at hmem
    rcases hf : fs file with reason | ev
    · rw [hf] at hmem
      simp at hmem
    · rw [hf] at hmem
      dsimp only at hmem
      rcases hr : readAll N ev with e | chunks
      · rw [hr] at hmem
        simp at hmem
      · rw [hr] at hmem
        dsimp only at hmem
        simp only [if_true, List.mem_cons] at hmem
        rcases hmem with hline | hmem
        · exact ⟨file, uuidV4OfBytes (toLeBytes
            (Xxh3.digest128 H3 (chunks.foldl Xxh3.update hasher))), hline,
            uuidV4Shape_toLeBytes _⟩
        · exact ih _ _ line hmem

/-- Claim C6: for every input and seed, when the 128-bit variant is selected
with the UUID flag set, each emitted line's digest portion is the 128-bit
digest's little-endian bytes reinterpreted as an RFC 4122 UUID with the
version nibble forced to 4 and the variant bits forced to `10`, matching
`[0-9a-f]{8}-[0-9a-f]{4}-4[0-9a-f]{3}-[89ab][0-9a-f]{3}-[0-9a-f]{12}`
(determinism is definitional: the rendering is a pure function of the
digest bytes, which are a pure function of input bytes and seed). -/
theorem xxh3_uuid_line_shape (H3 H3s H64 H32 : Nat → List Nat → Nat)
    (N seed : Nat) (files : List String) (fs : String → FileFate) (line : String)
    (hmem : line ∈ (mainRun H3 H3s H64 H32 N seed true HashKind.xxh3 files fs).out)
    (hne : files ≠ []) :
    ∃ f u, line = f ++ ":" ++ u ∧ uuidV4Shape u = true := by
  rw [mainRun, if_neg hne] at hmem
  exact loopXxh3_uuid_lines H3 N files (Xxh3.with_seed seed) fs line hmem

/-- Witness for C6 at a concrete run. -/
theorem xxh3_uuid_line_shape_witness :
    ∃ f u, "a:00000000-0000-4000-8000-000000000000" = f ++ ":" ++ u ∧
      uuidV4Shape u = true :=
  xxh3_uuid_line_shape (fun _ _ => 0) (fun _ _ => 0) (fun _ _ => 0) (fun _ _ => 0)
    8 0 ["a"] (fun _ => FileFate.src [])
    "a:00000000-0000-4000-8000-000000000000" (by decide) (by decide)

/-- Claim C9: for the three non-128-bit variants the UUID flag is never
consulted — the flag is read only in the `HashKind::Xxh3` branch — so two
runs differing only in the flag produce identical output (stdout, stderr,
opened files and exit status). -/
theorem uuid_flag_noop_non128 (H3 H3s H64 H32 : Nat → List Nat → Nat)
    (N seed : Nat) (u1 u2 : Bool) (kind : HashKind) (files : List String)
    (fs : String → FileFate) (hk : kind ≠ HashKind.xxh3) :
    mainRun H3 H3s H64 H32 N seed u1 kind files fs =
      mainRun H3 H3s H64 H32 N seed u2 kind files fs := by
  cases kind with
  | xxh3 => exact absurd rfl hk
  | xxh3_64 => rfl
  | xxh64 => rfl
  | xxh32 => rfl

/-- Witness for C9 at a concrete run. -/
theorem uuid_flag_noop_non128_witness :
    mainRun (fun _ _ => 0) (fun _ _ => 0) (fun _ _ => 0) (fun _ _ => 0) 8 0 true
        HashKind.xxh64 ["a"] (fun _ => FileFate.src []) =
      mainRun (fun _ _ => 0) (fun _ _ => 0) (fun _ _ => 0) (fun _ _ => 0) 8 0 false
        HashKind.xxh64 ["a"] (fun _ => FileFate.src []) :=
  uuid_flag_noop_non128 (fun _ _ => 0) (fun _ _ => 0) (fun _ _ => 0) (fun _ _ => 0)
    8 0 true false HashKind.xxh64 ["a"] (fun _ => FileFate.src []) (by decide)

/-- Refutation of C8 as stated ("any list of files"): with an over-range
seed, the 32-bit variant and an EMPTY file list, the run reports no
configuration error and prints the no-file notice, because `main` returns
on an empty file list before the seed is validated. -/
theorem xxh32_bad_seed_empty_files_counterexample :
    (mainRun (fun _ _ => 0) (fun _ _ => 0) (fun _ _ => 0) (fun _ _ => 0) 8 4294967296
        false HashKind.xxh32 [] (fun _ => FileFate.openErr "x")).err = [] ∧
    (mainRun (fun _ _ => 0) (fun _ _ => 0) (fun _ _ => 0) (fun _ _ => 0) 8 4294967296
        false HashKind.xxh32 [] (fun _ => FileFate.openErr "x")).out =
      ["No file specified..."] := by
  decide

/-- Claim C8 (amended): for every seed above `2^32 - 1`, the 32-bit variant
with a non-empty list of files reports the configuration error before any
file is opened, produces zero stdout lines, and performs no hashing; with
an empty file list the no-file notice takes precedence, as `main` returns
before validating the seed. -/
theorem xxh32_bad_seed_config_error (H3 H3s H64 H32 : Nat → List Nat → Nat)
    (N seed : Nat) (uuid : Bool) (files : List String) (fs : String → FileFate)
    (hs : 4294967296 ≤ seed) (hne : files ≠ []) :
    mainRun H3 H3s H64 H32 N seed uuid HashKind.xxh32 files fs =
      ⟨[], [toString seed ++ " is not valid seed for 32bit hash"], [], 0⟩ := by
  rw [mainRun, if_neg hne]
  rw [if_neg (by omega)]

/-- Witness for the amended C8 at a concrete over-range seed. -/
theorem xxh32_bad_seed_config_error_witness :
    mainRun (fun _ _ => 0) (fun _ _ => 0) (fun _ _ => 0) (fun _ _ => 0) 8 4294967296
        false HashKind.xxh32 ["a"] (fun _ => FileFate.openErr "x") =
      ⟨[], [toString (4294967296 : Nat) ++ " is not valid seed for 32bit hash"], [], 0⟩ :=
  xxh32_bad_seed_config_error (fun _ _ => 0) (fun _ _ => 0) (fun _ _ => 0)
    (fun _ _ => 0) 8 4294967296 false ["a"] (fun _ => FileFate.openErr "x")
    (by omega) (by decide)

/-- Driver-loop truncation for the `Xxh3` branch: when every file of `pre`
opens and reads cleanly and processing `f` aborts with `msg`, the loop
emits one `"<path>:<digest>"` line per file of `pre` in order, then the
error message, opens exactly `pre ++ [f]`, and never touches `rest`. -/
theorem loopXxh3_prefix (H3 : Nat → List Nat → Nat) (uuid : Bool) (N : Nat)
    (fs : String → FileFate) (f msg : String) (hfail : failsAt N fs f msg) :
    ∀ (pre : List String) (hasher : Xxh3) (rest : List String),
      (∀ p ∈ pre, ∃ ev cs, fs p = FileFate.src ev ∧ readAll N ev = Except.ok cs) →
      ∃ ds : List String, ds.length = pre.length ∧
        loopXxh3 H3 uuid N hasher (pre ++ f :: rest) fs =
          ⟨List.zipWith (fun p d => p ++ ":" ++ d) pre ds, [msg], pre ++ [f], 0⟩ := by
  intro pre
  induction pre with
  | nil =>
    intro hasher rest _
    refine ⟨[], rfl, ?_⟩
    rw [List.nil_append, List.nil_append]
    rcases hfail with ⟨r, hf, hmsg⟩ | ⟨ev, e, hf, hre, hmsg⟩
    · rw [loopXxh3, hf, hmsg]
      simp
    · rw [loopXxh3, hf]
      dsimp only
      rw [hre, hmsg]
      simp
  | cons p pre ih =>
    intro hasher rest hpre
    obtain ⟨ev, cs, hf, hre⟩ := hpre p (by simp)
    obtain ⟨ds, hlen, hloop⟩ :=
      ih (Xxh3.reset (cs.foldl Xxh3.update hasher)) rest
        (fun q hq => hpre q (by simp [hq]))
    refine ⟨(if uuid then
        uuidV4OfBytes (toLeBytes (Xxh3.digest128 H3 (cs.foldl Xxh3.update hasher)))
      else toString (Xxh3.digest128 H3 (cs.foldl Xxh3.update hasher))) :: ds,
      by simp [hlen], ?_⟩
    rw [List.cons_append, loopXxh3, hf]
    dsimp only
    rw [hre]
    dsimp only
    rw [hloop]
    cases uuid <;> simp

/-- Driver-loop truncation for the `Xxh3_64` branch. -/
theorem loopXxh3_64_prefix (H3s : Nat → List Nat → Nat) (N : Nat)
    (fs : String → FileFate) (f msg : String) (hfail : failsAt N fs f msg) :
    ∀ (pre : List String) (hasher : Xxh3) (rest : List String),
      (∀ p ∈ pre, ∃ ev cs, fs p = FileFate.src ev ∧ readAll N ev = Except.ok cs) →
      ∃ ds : List String, ds.length = pre.length ∧
        loopXxh3_64 H3s N hasher (pre ++ f :: rest) fs =
          ⟨List.zipWith (fun p d => p ++ ":" ++ d) pre ds, [msg], pre ++ [f], 0⟩ := by
  intro pre
  induction pre with
  | nil =>
    intro hasher rest _
    refine ⟨[], rfl, ?_⟩
    rw [List.nil_append, List.nil_append]
    rcases hfail with ⟨r, hf, hmsg⟩ | ⟨ev, e, hf, hre, hmsg⟩
    · rw [loopXxh3_64, hf, hmsg]
      simp
    · rw [loopXxh3_64, hf]
      dsimp only
      rw [hre, hmsg]
      simp
  | cons p pre ih =>
    intro hasher rest hpre
    obtain ⟨ev, cs, hf, hre⟩ := hpre p (by simp)
    obtain ⟨ds, hlen, hloop⟩ :=
      ih (Xxh3.reset (cs.foldl Xxh3.update hasher)) rest
        (fun q hq => hpre q (by simp [hq]))
    refine ⟨toString (Xxh3.digest H3s (cs.foldl Xxh3.update hasher)) :: ds,
      by simp [hlen], ?_⟩
    rw [List.cons_append, loopXxh3_64, hf]
    dsimp only
    rw [hre]
    dsimp only
    rw [hloop]
    simp

/-- Driver-loop truncation for the `Xxh64` branch. -/
theorem loopXxh64_prefix (H64 : Nat → List Nat → Nat) (N seed : Nat)
    (fs : String → FileFate) (f msg : String) (hfail : failsAt N fs f msg) :
    ∀ (pre : List String) (hasher : Xxh64) (rest : List String),
      (∀ p ∈ pre, ∃ ev cs, fs p = FileFate.src ev ∧ readAll N ev = Except.ok cs) →
      ∃ ds : List String, ds.length = pre.length ∧
        loopXxh64 H64 N seed hasher (pre ++ f :: rest) fs =
          ⟨List.zipWith (fun p d => p ++ ":" ++ d) pre ds, [msg], pre ++ [f], 0⟩ := by
  intro pre
  induction pre with
  | nil =>
    intro hasher rest _
    refine ⟨[], rfl, ?_⟩
    rw [List.nil_append, List.nil_append]
    rcases hfail with ⟨r, hf, hmsg⟩ | ⟨ev, e, hf, hre, hmsg⟩
    · rw [loopXxh64, hf, hmsg]
      simp
    · rw [loopXxh64, hf]
      dsimp only
      rw [hre, hmsg]
      simp
  | cons p pre ih =>
    intro hasher rest hpre
    obtain ⟨ev, cs, hf, hre⟩ := hpre p (by simp)
    obtain ⟨ds, hlen, hloop⟩ :=
      ih (Xxh64.reset (cs.foldl Xxh64.update hasher) seed) rest
        (fun q hq => hpre q (by simp [hq]))
    refine ⟨toString (Xxh64.digest H64 (cs.foldl Xxh64.update hasher)) :: ds,
      by simp [hlen], ?_⟩
    rw [List.cons_append, loopXxh64, hf]
    dsimp only
    rw [hre]
    dsimp only
    rw [hloop]
    simp

/-- Driver-loop truncation for the `Xxh32` branch. -/
theorem loopXxh32_prefix (H32 : Nat → List Nat → Nat) (N seed : Nat)
    (fs : String → FileFate) (f msg : String) (hfail : failsAt N fs f msg) :
    ∀ (pre : List String) (hasher : Xxh32) (rest : List String),
      (∀ p ∈ pre, ∃ ev cs, fs p = FileFate.src ev ∧ readAll N ev = Except.ok cs) →
      ∃ ds : List String, ds.length = pre.length ∧
        loopXxh32 H32 N seed hasher (pre ++ f :: rest) fs =
          ⟨List.zipWith (fun p d => p ++ ":" ++ d) pre ds, [msg], pre ++ [f], 0⟩ := by
  intro pre
  induction pre with
  | nil =>
    intro hasher rest _
    refine ⟨[], rfl, ?_⟩
    rw [List.nil_append, List.nil_append]
    rcases hfail with ⟨r, hf, hmsg⟩ | ⟨ev, e, hf, hre, hmsg⟩
    · rw [loopXxh32, hf, hmsg]
      simp
    · rw [loopXxh32, hf]
      dsimp only
      rw [hre, hmsg]
      simp
  | cons p pre ih =>
    intro hasher rest hpre
    obtain ⟨ev, cs, hf, hre⟩ := hpre p (by simp)
    obtain ⟨ds, hlen, hloop⟩ :=
      ih (Xxh32.reset (cs.foldl Xxh32.update hasher) seed) rest
        (fun q hq => hpre q (by simp [hq]))
    refine ⟨toString (Xxh32.digest H32 (cs.foldl Xxh32.update hasher)) :: ds,
      by simp [hlen], ?_⟩
    rw [List.cons_append, loopXxh32, hf]
    dsimp only
    rw [hre]
    dsimp only
    rw [hloop]
    simp

/-- Claim C7: for every ordered list of sources, if opening or reading
source `i` fails, exactly the `"<path>:<digest>"` lines of the sources
before `i` remain printed in input order, the error is emitted with the
matching `cannot open`/`error reading` format, no digest line is emitted
for source `i`, and no source after `i` is opened or processed. -/
theorem mainRun_error_prefix_output (H3 H3s H64 H32 : Nat → List Nat → Nat)
    (N seed : Nat) (uuid : Bool) (kind : HashKind) (pre : List String)
    (f : String) (rest : List String) (fs : String → FileFate) (msg : String)
    (hseed : kind = HashKind.xxh32 → seed < 4294967296)
    (hpre : ∀ p ∈ pre, ∃ ev cs, fs p = FileFate.src ev ∧ readAll N ev = Except.ok cs)
    (hfail : failsAt N fs f msg) :
    ∃ ds : List String, ds.length = pre.length ∧
      mainRun H3 H3s H64 H32 N seed uuid kind (pre ++ f :: rest) fs =
        ⟨List.zipWith (fun p d => p ++ ":" ++ d) pre ds, [msg], pre ++ [f], 0⟩ := by
  have hne : pre ++ f :: rest ≠ [] := by simp
  rw [mainRun.eq_def, if_neg hne]
  cases kind with
  | xxh3 =>
    exact loopXxh3_prefix H3 uuid N fs f msg hfail pre (Xxh3.with_seed seed) rest hpre
  | xxh3_64 =>
    exact loopXxh3_64_prefix H3s N fs f msg hfail pre (Xxh3.with_seed seed) rest hpre
  | xxh64 =>
    exact loopXxh64_prefix H64 N seed fs f msg hfail pre (Xxh64.new seed) rest hpre
  | xxh32 =>
    rw [if_pos (hseed rfl)]
    exact loopXxh32_prefix H32 N seed fs f msg hfail pre (Xxh32.new seed) rest hpre

/-- Witness for C7: one successful file, then a missing file, then an
unopened one. -/
theorem mainRun_error_prefix_output_witness :
    ∃ ds : List String, ds.length = (["a"] : List String).length ∧
      mainRun (fun _ _ => 0) (fun _ _ => 0) (fun _ _ => 0) (fun _ _ => 0) 8 0 false
          HashKind.xxh64 (["a"] ++ "b" :: ["c"])
          (fun s => if s = "a" then FileFate.src [Delivery.chunk [1]]
            else FileFate.openErr "nope") =
        ⟨List.zipWith (fun p d => p ++ ":" ++ d) ["a"] ds,
          ["b" ++ ": cannot open: " ++ "nope"], ["a"] ++ ["b"], 0⟩ :=
  mainRun_error_prefix_output (fun _ _ => 0) (fun _ _ => 0) (fun _ _ => 0)
    (fun _ _ => 0) 8 0 false HashKind.xxh64 ["a"] "b" ["c"]
    (fun s => if s = "a" then FileFate.src [Delivery.chunk [1]]
      else FileFate.openErr "nope")
    ("b" ++ ": cannot open: " ++ "nope")
    (by decide)
    (by
      intro p hp
      simp only [List.mem_singleton] at hp
      subst hp
      exact ⟨[Delivery.chunk [1]], [[1]], by decide, by decide⟩)
    (Or.inl ⟨"nope", by decide, rfl⟩)

/-- Refutation of C3 as stated: an invocation aborted by an open error
writes the message to standard error but terminates with exit status 0 —
`fn main()` plain-returns on every error path and never calls
`process::exit`, so the process status is the success status, not a
failure status distinguishable from success. -/
theorem mainRun_error_exit_zero_counterexample :
    (mainRun (fun _ _ => 0) (fun _ _ => 0) (fun _ _ => 0) (fun _ _ => 0) 8 0 false
        HashKind.xxh64 ["f"] (fun _ => FileFate.openErr "missing")).err =
      ["f: cannot open: missing"] ∧
    (mainRun (fun _ _ => 0) (fun _ _ => 0) (fun _ _ => 0) (fun _ _ => 0) 8 0 false
        HashKind.xxh64 ["f"] (fun _ => FileFate.openErr "missing")).exit = 0 := by
  decide

/-- Claim C3 (amended): whenever the invocation is aborted by an open error
or a read error, the error message is written to standard error and the
invocation terminates immediately, but the process exit status is 0 — the
same status as success — because `main` returns normally on error paths. -/
theorem mainRun_error_reports_and_exits_normally (H3 H3s H64 H32 : Nat → List Nat → Nat)
    (N seed : Nat) (uuid : Bool) (kind : HashKind) (f : String)
    (rest : List String) (fs : String → FileFate) (msg : String)
    (hseed : kind = HashKind.xxh32 → seed < 4294967296)
    (hfail : failsAt N fs f msg) :
    (mainRun H3 H3s H64 H32 N seed uuid kind (f :: rest) fs).err = [msg] ∧
    (mainRun H3 H3s H64 H32 N seed uuid kind (f :: rest) fs).exit = 0 := by
  have hne : (f :: rest : List String) ≠ [] := by simp
  have key : mainRun H3 H3s H64 H32 N seed uuid kind (f :: rest) fs =
      ⟨[], [msg], [f], 0⟩ := by
    rw [mainRun.eq_def, if_neg hne]
    cases kind with
    | xxh3 =>
      obtain ⟨ds, _, h⟩ := loopXxh3_prefix H3 uuid N fs f msg hfail []
        (Xxh3.with_seed seed) rest (by simp)
      exact h
    | xxh3_64 =>
      obtain ⟨ds, _, h⟩ := loopXxh3_64_prefix H3s N fs f msg hfail []
        (Xxh3.with_seed seed) rest (by simp)
      exact h
    | xxh64 =>
      obtain ⟨ds, _, h⟩ := loopXxh64_prefix H64 N seed fs f msg hfail []
        (Xxh64.new seed) rest (by simp)
      exact h
    | xxh32 =>
      rw [if_pos (hseed rfl)]
      obtain ⟨ds, _, h⟩ := loopXxh32_prefix H32 N seed fs f msg hfail []
        (Xxh32.new seed) rest (by simp)
      exact h
  rw [key]
  exact ⟨rfl, rfl⟩

/-- Witness for the amended C3 at a concrete failing open. -/
theorem mainRun_error_reports_and_exits_normally_witness :
    (mainRun (fun _ _ => 0) (fun _ _ => 0) (fun _ _ => 0) (fun _ _ => 0) 8 0 false
        HashKind.xxh3 ["g"] (fun _ => FileFate.openErr "gone")).err =
      ["g" ++ ": cannot open: " ++ "gone"] ∧
    (mainRun (fun _ _ => 0) (fun _ _ => 0) (fun _ _ => 0) (fun _ _ => 0) 8 0 false
        HashKind.xxh3 ["g"] (fun _ => FileFate.openErr "gone")).exit = 0 :=
  mainRun_error_reports_and_exits_normally (fun _ _ => 0) (fun _ _ => 0)
    (fun _ _ => 0) (fun _ _ => 0) 8 0 false HashKind.xxh3 "g" []
    (fun _ => FileFate.openErr "gone") ("g" ++ ": cannot open: " ++ "gone")
    (by decide) (Or.inl ⟨"gone", rfl, rfl⟩)
